import Mathlib

/-!
Verification of the in-terminal source-code editing engine of PyEdit
(`python_editor_tui.py`): line-buffer edit operations, load/save text
boundary, viewport projection, search, indentation cleanup and the
token-driven style-span classifier.

Strings are modelled as `List Char`.  The Python tokenizer
(`tokenize.generate_tokens`) is external standard-library code; the loops of
`compute_indents` and `build_syntax_spans` are embedded faithfully over an
abstract stream of token events, where the event `err` marks the point at
which the generator raises a caught lexical error (`TokenError` /
`IndentationError`).
-/

set_option autoImplicit false
set_option maxHeartbeats 1000000
set_option linter.unnecessarySimpa false
set_option linter.unusedVariables false

namespace PyEdit

/-- One text line of a buffer, as its list of characters. -/
abbrev Line := List Char

/-- Characters of a string literal. -/
def s2l (s : String) : Line := s.data

/-- Source constant `INDENT_WIDTH = 4`. -/
def INDENT_WIDTH : Nat := 4

/-- Python `str.lstrip(" ")`: leading space characters removed. -/
def lstripSpaces (l : Line) : Line := l.dropWhile (fun c => c == ' ')

/-- Number of leading space characters of a line. -/
def leadingSpaces (l : Line) : Nat := (l.takeWhile (fun c => c == ' ')).length

/-- Python whitespace test backing `str.rstrip()` (ASCII controls, space and
the Unicode space code points). -/
def pyIsSpace (c : Char) : Bool :=
  c.toNat ∈ [9, 10, 11, 12, 13, 28, 29, 30, 31, 32, 133, 160, 5760, 8192, 8193, 8194,
    8195, 8196, 8197, 8198, 8199, 8200, 8201, 8202, 8232, 8233, 8239, 8287, 12288]

/-- Python `str.rstrip()`: trailing whitespace removed. -/
def rstripPy (l : Line) : Line := (l.reverse.dropWhile pyIsSpace).reverse

/-- Length of the prefix removed by Python `str.lstrip(" \t")`. -/
def spaceTabPrefixLen (l : Line) : Nat :=
  (l.takeWhile (fun c => c == ' ' || c == '\t')).length

/-- Python `str.replace("\t", " " * INDENT_WIDTH)`. -/
def tabExpand (l : Line) : Line :=
  l.flatMap (fun c => if c = '\t' then List.replicate INDENT_WIDTH ' ' else [c])

/-- Python `list.pop(i)`. -/
def pyPop {α : Type} (l : List α) (i : Nat) : List α := l.take i ++ l.drop (i + 1)

/-- Python `list.insert(i, x)`. -/
def pyInsert {α : Type} (l : List α) (i : Nat) (x : α) : List α :=
  l.take i ++ x :: l.drop i

/-- Buffer state of one open document (source dataclass `Buffer`; the
`file_path` field, irrelevant to the claims, is omitted). -/
structure Buffer where
  lines : List Line := [[]]
  cursor_y : Nat := 0
  cursor_x : Nat := 0
  preferred_x : Nat := 0
  scroll_y : Nat := 0
  scroll_x : Nat := 0
  dirty : Bool := false
  selecting : Bool := false
  selection_start : Option Nat := none
  selection_end : Option Nat := none
  deriving DecidableEq

/-- Source `has_selection`. -/
def hasSelection (b : Buffer) : Bool :=
  b.selection_start.isSome && b.selection_end.isSome

/-- Source `selection_range`: the selected line range, sorted. -/
def selectionRange (b : Buffer) : Option (Nat × Nat) :=
  match b.selection_start, b.selection_end with
  | some s, some e => if s ≤ e then some (s, e) else some (e, s)
  | _, _ => none

/-- Source `delete_selection`: remove the selected whole lines, reset to a
single empty line if that empties the buffer, clamp the cursor. -/
def deleteSelection (b : Buffer) : Buffer :=
  match selectionRange b with
  | none => b
  | some (s, e) =>
    let s := min s (b.lines.length - 1)
    let e := min e (b.lines.length - 1)
    if s > e then b
    else
      let ls := b.lines.take s ++ b.lines.drop (e + 1)
      let ls := if ls = [] then [[]] else ls
      { b with
        lines := ls,
        cursor_y := min s (ls.length - 1),
        cursor_x := 0,
        preferred_x := 0,
        dirty := true,
        selecting := false,
        selection_start := none,
        selection_end := none }

/-- Source `insert_char`: optionally delete a frozen selection, then splice
`ch` at the cursor and advance the cursor by its length. -/
def insertChar (b : Buffer) (ch : Line) : Buffer :=
  let b := if hasSelection b && !b.selecting then deleteSelection b else b
  let line := b.lines.getD b.cursor_y []
  { b with
    lines := b.lines.set b.cursor_y (line.take b.cursor_x ++ ch ++ line.drop b.cursor_x),
    cursor_x := b.cursor_x + ch.length,
    preferred_x := b.cursor_x + ch.length,
    dirty := true }

/-- Source `newline`: split the current line at the cursor; the new line
starts with the leading spaces of the text before the cursor, plus one
indent unit if that text (right-stripped) ends with a colon; leading spaces
of the text after the cursor are stripped. -/
def newline (b : Buffer) : Buffer :=
  let b := if hasSelection b && !b.selecting then deleteSelection b else b
  let line := b.lines.getD b.cursor_y []
  let before := line.take b.cursor_x
  let after := line.drop b.cursor_x
  let indent := before.length - (lstripSpaces before).length
  let extra := if (rstripPy before).getLast? = some ':' then INDENT_WIDTH else 0
  { b with
    lines := pyInsert (b.lines.set b.cursor_y before) (b.cursor_y + 1)
      (List.replicate (indent + extra) ' ' ++ lstripSpaces after),
    cursor_y := b.cursor_y + 1,
    cursor_x := indent + extra,
    preferred_x := indent + extra,
    dirty := true }

/-- Source `backspace`: delete a frozen selection, else delete the character
before the cursor, else (at column 0 of a non-first line) merge with the
previous line. -/
def backspace (b : Buffer) : Buffer :=
  if hasSelection b && !b.selecting then deleteSelection b
  else if 0 < b.cursor_x then
    let line := b.lines.getD b.cursor_y []
    { b with
      lines := b.lines.set b.cursor_y (line.take (b.cursor_x - 1) ++ line.drop b.cursor_x),
      cursor_x := b.cursor_x - 1,
      preferred_x := b.cursor_x - 1,
      dirty := true }
  else if b.cursor_y = 0 then b
  else
    let prev := b.lines.getD (b.cursor_y - 1) []
    let curr := b.lines.getD b.cursor_y []
    { b with
      lines := pyPop (b.lines.set (b.cursor_y - 1) (prev ++ curr)) b.cursor_y,
      cursor_y := b.cursor_y - 1,
      cursor_x := prev.length,
      preferred_x := prev.length,
      dirty := true }

/-- Source `delete_forward`: delete a frozen selection, else delete the
character at the cursor, else (at end of a non-last line) merge with the
next line. -/
def deleteForward (b : Buffer) : Buffer :=
  if hasSelection b && !b.selecting then deleteSelection b
  else
    let line := b.lines.getD b.cursor_y []
    if b.cursor_x < line.length then
      { b with
        lines := b.lines.set b.cursor_y (line.take b.cursor_x ++ line.drop (b.cursor_x + 1)),
        dirty := true }
    else if b.lines.length ≤ b.cursor_y + 1 then b
    else
      let next := b.lines.getD (b.cursor_y + 1) []
      { b with
        lines := pyPop (b.lines.set b.cursor_y (line ++ next)) (b.cursor_y + 1),
        dirty := true }

/-- One keystroke-level edit operation of claim C1. -/
inductive Op where
  | insert (ch : Line)
  | backspace
  | deleteForward
  deriving DecidableEq

/-- Apply one edit operation. -/
def applyOp (b : Buffer) (op : Op) : Buffer :=
  match op with
  | .insert ch => insertChar b ch
  | .backspace => backspace b
  | .deleteForward => deleteForward b

/-- Apply a sequence of edit operations, first to last. -/
def applyOps (ops : List Op) (b : Buffer) : Buffer := ops.foldl applyOp b

/-- Data-model invariant of the spec: the buffer has at least one line, the
cursor line is a valid index and the cursor column is at most the length of
the cursor line. -/
def BufferInv (b : Buffer) : Prop :=
  b.lines ≠ [] ∧ b.cursor_y < b.lines.length ∧
    b.cursor_x ≤ (b.lines.getD b.cursor_y []).length

instance (b : Buffer) : Decidable (BufferInv b) := by
  unfold BufferInv; infer_instance

/-- Line-boundary characters recognised by Python `str.splitlines`. -/
def isLineBreak (c : Char) : Bool :=
  c.toNat ∈ [10, 11, 12, 13, 28, 29, 30, 133, 8232, 8233]

/-- Worker of `splitlines`: `acc` is the current (reversed) unfinished
line; a carriage return followed by a line feed counts as one boundary. -/
def slGo : List Char → List Char → List (List Char)
  | [], acc => if acc.isEmpty then [] else [acc.reverse]
  | '\r' :: '\n' :: rest, acc => acc.reverse :: slGo rest []
  | c :: rest, acc =>
    if isLineBreak c then acc.reverse :: slGo rest [] else slGo rest (c :: acc)

/-- Python `str.splitlines()`. -/
def splitlines (t : Line) : List Line := slGo t []

/-- Source `load_file` applied to the raw text read from disk: split into
lines, append an empty line if the text ends with a line feed, and fall back
to a single empty line. -/
def load_file (text : Line) : List Line :=
  let ls := splitlines text
  let ls := if text.getLast? = some '\n' then ls ++ [[]] else ls
  if ls = [] then [[]] else ls

/-- Python `"\n".join(lines)`. -/
def joinNL : List Line → Line
  | [] => []
  | [l] => l
  | l :: ls => l ++ '\n' :: joinNL ls

/-- Source `save_file` restricted to the text it writes. -/
def save_file (ls : List Line) : Line := joinNL ls

/-- Source `ensure_cursor_visible`, as a pure function from cursor position,
scroll offsets and visible body dimensions to the new scroll offsets. -/
def ensureCursorVisible (cy cx sy sx bodyH editorW : Int) : Int × Int :=
  let sy := if cy < sy then cy else if sy + bodyH ≤ cy then cy - bodyH + 1 else sy
  let sx := if cx < sx then cx else if sx + editorW ≤ cx then cx - editorW + 1 else sx
  (max 0 sy, max 0 sx)

/-- Python `str.find(q, start)` for a non-empty needle, as the least index
`≥ start` at which `q` occurs (`none` when absent). -/
def strFind (l q : Line) (start : Nat) : Option Nat :=
  ((List.range (l.length + 1)).filter
    (fun i => decide (start ≤ i) && q.isPrefixOf (l.drop i))).head?

/-- Source `find_next` restricted to the buffer it rewrites: search forward
from just after the cursor, wrap to the top on failure, and move only the
cursor and preferred column on a hit. -/
def findNext (b : Buffer) (q : Line) : Buffer :=
  if q = [] then b
  else
    let sL := b.cursor_y
    let sC := b.cursor_x + 1
    let forwardHit :=
      (List.range' sL (b.lines.length - sL)).findSome?
        (fun i => (strFind (b.lines.getD i []) q (if i = sL then sC else 0)).map
          (fun p => (i, p)))
    let hit :=
      match forwardHit with
      | some p => some p
      | none =>
        (List.range' 0 (sL + 1)).findSome?
          (fun i => (strFind (b.lines.getD i []) q 0).map (fun p => (i, p)))
    match hit with
    | some (y, x) => { b with cursor_y := y, cursor_x := x, preferred_x := x }
    | none => b

/-- Token kinds of the tokenizer adapter (`tokenize` module constants). -/
inductive TokType where
  | COMMENT | STRING | NUMBER | OP | NAME
  | NL | NEWLINE | INDENT | DEDENT | ENCODING | ENDMARKER | OTHER
  deriving DecidableEq

/-- A token of the stream produced by `tokenize.generate_tokens`: kind,
verbatim text and 1-based source span. -/
structure Tok where
  type : TokType
  string : Line
  sLine : Nat
  sCol : Nat
  eLine : Nat
  eCol : Nat
  deriving DecidableEq

/-- One event of the lazily-consumed token generator: a yielded token, or the
point at which the generator raises a caught lexical error. -/
inductive TokEvent where
  | tok (t : Tok)
  | err
  deriving DecidableEq

/-- Python `needle in hay` on strings (substring test; an empty needle is a
substring of everything). -/
def pyInStr (needle hay : Line) : Bool :=
  (List.range (hay.length + 1)).any (fun i => needle.isPrefixOf (hay.drop i))

/-- Closed integer range `[a, b]` as a list. -/
def rangeClosed (a b : Nat) : List Nat := List.range' a (b + 1 - a)

/-- Loop state of `compute_indents`.  `lineIndents` models the Python dict by
an association list in which the most recent assignment is prepended, so that
`lookup` returns the latest binding. -/
structure CIState where
  lineIndents : List (Nat × Nat) := []
  skipLines : List Nat := []
  currentIndent : Nat := 0
  parenLevel : Nat := 0
  deriving DecidableEq

/-- Body of the `compute_indents` token loop, one token. -/
def ciStep (st : CIState) (t : Tok) : CIState :=
  let pl :=
    if t.type = .OP then
      if pyInStr t.string (s2l "([\x7b") then st.parenLevel + 1
      else if pyInStr t.string (s2l ")]\x7d") then st.parenLevel - 1
      else st.parenLevel
    else st.parenLevel
  let sk :=
    if t.type = .STRING ∧ t.sLine ≠ t.eLine then st.skipLines ++ rangeClosed t.sLine t.eLine
    else st.skipLines
  let sk := if 0 < pl then sk ++ [t.sLine] else sk
  if t.type = .INDENT then
    { lineIndents := if t.sLine ∈ sk then st.lineIndents
        else (t.sLine, st.currentIndent + 1) :: st.lineIndents,
      skipLines := sk, currentIndent := st.currentIndent + 1, parenLevel := pl }
  else if t.type = .DEDENT then
    { lineIndents := if t.sLine ∈ sk then st.lineIndents
        else (t.sLine, st.currentIndent - 1) :: st.lineIndents,
      skipLines := sk, currentIndent := st.currentIndent - 1, parenLevel := pl }
  else if t.type = .NL ∨ t.type = .NEWLINE ∨ t.type = .ENCODING ∨ t.type = .ENDMARKER then
    { st with skipLines := sk, parenLevel := pl }
  else
    { lineIndents :=
        if t.sLine ∈ sk ∨ (st.lineIndents.lookup t.sLine).isSome then st.lineIndents
        else (t.sLine, st.currentIndent) :: st.lineIndents,
      skipLines := sk, currentIndent := st.currentIndent, parenLevel := pl }

/-- The `compute_indents` loop over generator events; an error event aborts
the whole computation (`return None` in the source). -/
def ciLoop : List TokEvent → CIState → Option (List (Nat × Nat) × List Nat)
  | [], st => some (st.lineIndents, st.skipLines)
  | .err :: _, _ => none
  | .tok t :: rest, st => ciLoop rest (ciStep st t)

/-- Source `compute_indents` over the token events of the joined buffer. -/
def computeIndents (events : List TokEvent) : Option (List (Nat × Nat) × List Nat) :=
  ciLoop events {}

/-- Rewrite of one non-skipped line in `cleanup_indentation`: normalize
leading tabs, strip trailing whitespace, then re-indent the stripped content
to the computed level. -/
def cleanLine (li : List (Nat × Nat)) (idx : Nat) (raw : Line) : Line :=
  let pLen := spaceTabPrefixLen raw
  let raw := tabExpand (raw.take pLen) ++ raw.drop pLen
  let stripped := rstripPy raw
  if stripped = [] then []
  else List.replicate (((li.lookup idx).getD 0) * INDENT_WIDTH) ' ' ++ lstripSpaces stripped

/-- The `enumerate(lines, start=1)` loop of `cleanup_indentation`: a line
whose 1-based number is in the skip set is appended verbatim. -/
def cleanupLoop (li : List (Nat × Nat)) (sk : List Nat) : Nat → List Line → List Line
  | _, [] => []
  | idx, raw :: rest =>
    (if idx ∈ sk then raw else cleanLine li idx raw) :: cleanupLoop li sk (idx + 1) rest

/-- Degraded per-line cleanup used when tokenization fails: normalize leading
tabs and strip trailing whitespace only. -/
def fallbackLine (raw : Line) : Line :=
  let pLen := spaceTabPrefixLen raw
  rstripPy (tabExpand (raw.take pLen) ++ raw.drop pLen)

/-- Source `cleanup_indentation`, over the token events of the joined
buffer. -/
def cleanupIndentation (lines : List Line) (events : List TokEvent) :
    List Line × String :=
  match computeIndents events with
  | none =>
    let cleaned := lines.map fallbackLine
    (if cleaned = [] then [[]] else cleaned,
      "Cleanup: normalized tabs + trailing whitespace (parse failed).")
  | some (li, sk) =>
    let cleaned := cleanupLoop li sk 1 lines
    (if cleaned = [] then [[]] else cleaned, "Indentation normalized to 4 spaces.")

/-- Style taxonomy of the highlighter (the non-empty `style` strings of the
source). -/
inductive Style where
  | comment | stringLit | number | decorator | keyword | defname | classname | builtin
  deriving DecidableEq

/-- A per-line style span (source dataclass `TokenSpan`). -/
structure Span where
  startCol : Nat
  endCol : Nat
  style : Style
  deriving DecidableEq

/-- The per-line style map, keyed by 1-based line number.  Python dict
insertion order is modelled by appending new keys at the end; `List.lookup`
returns the unique binding. -/
abbrev SpanMap := List (Nat × List Span)

/-- Append a span to the list of its line (`spans.setdefault(...).append`). -/
def addSpanEntry : SpanMap → Nat → Span → SpanMap
  | [], ln, s => [(ln, [s])]
  | (k, l) :: rest, ln, s =>
    if k = ln then (k, l ++ [s]) :: rest else (k, l) :: addSpanEntry rest ln s

/-- Source inner helper `add_span`: drop empty spans, append the rest. -/
def addSpan (m : SpanMap) (ln sCol eCol : Nat) (sty : Style) : SpanMap :=
  if eCol ≤ sCol then m else addSpanEntry m ln ⟨sCol, eCol, sty⟩

/-- Length of the 1-based line `ln` of the buffer. -/
def lineLen (lines : List Line) (ln : Nat) : Nat := (lines.getD (ln - 1) []).length

/-- Fan a styled token out into per-line spans, clipping multi-line tokens to
each covered line's length. -/
def addTokSpans (lines : List Line) (m : SpanMap) (t : Tok) (sty : Style) : SpanMap :=
  if t.sLine = t.eLine then addSpan m t.sLine t.sCol t.eCol sty
  else
    let m := if 1 ≤ t.sLine ∧ t.sLine - 1 < lines.length then
        addSpan m t.sLine t.sCol (lineLen lines t.sLine) sty
      else m
    let m := (List.range' (t.sLine + 1) (t.eLine - (t.sLine + 1))).foldl
      (fun m ln => if 1 ≤ ln ∧ ln - 1 < lines.length then
          addSpan m ln 0 (lineLen lines ln) sty
        else m) m
    addSpan m t.eLine 0 t.eCol sty

/-- Python `keyword.kwlist`. -/
def pyKeywords : List Line :=
  [s2l "False", s2l "None", s2l "True", s2l "and", s2l "as", s2l "assert", s2l "async",
   s2l "await", s2l "break", s2l "class", s2l "continue", s2l "def", s2l "del",
   s2l "elif", s2l "else", s2l "except", s2l "finally", s2l "for", s2l "from",
   s2l "global", s2l "if", s2l "import", s2l "in", s2l "is", s2l "lambda",
   s2l "nonlocal", s2l "not", s2l "or", s2l "pass", s2l "raise", s2l "return", s2l "try",
   s2l "while", s2l "with", s2l "yield"]

/-- Style decision of `build_syntax_spans` for one token, together with the
updated `pending_def` / `pending_class` flags. -/
def classify (builtins : List Line) (pd pc : Bool) (t : Tok) :
    Option Style × Bool × Bool :=
  match t.type with
  | .COMMENT => (some .comment, pd, pc)
  | .STRING => (some .stringLit, pd, pc)
  | .NUMBER => (some .number, pd, pc)
  | .OP => (if t.string = s2l "@" then some .decorator else none, pd, pc)
  | .NAME =>
    if t.string ∈ pyKeywords then
      if t.string = s2l "def" then (some .keyword, true, false)
      else if t.string = s2l "class" then (some .keyword, false, true)
      else (some .keyword, pd, pc)
    else if pd then (some .defname, false, pc)
    else if pc then (some .classname, pd, false)
    else if t.string ∈ builtins then (some .builtin, pd, pc)
    else (none, pd, pc)
  | _ => (none, pd, pc)

/-- Loop state of `build_syntax_spans`. -/
structure BSState where
  spans : SpanMap := []
  pendingDef : Bool := false
  pendingClass : Bool := false
  deriving DecidableEq

/-- Body of the `build_syntax_spans` token loop, one token. -/
def bsStep (lines builtins : List Line) (st : BSState) (t : Tok) : BSState :=
  match classify builtins st.pendingDef st.pendingClass t with
  | (none, pd, pc) => { st with pendingDef := pd, pendingClass := pc }
  | (some sty, pd, pc) =>
    { spans := addTokSpans lines st.spans t sty, pendingDef := pd, pendingClass := pc }

/-- Python `spans[line_no].sort(key=lambda span: span.start)` (a stable sort
by start column). -/
def sortSpans (l : List Span) : List Span :=
  l.insertionSort (fun a b => a.startCol ≤ b.startCol)

/-- The `build_syntax_spans` loop over generator events; an error event
returns the empty map, discarding every span built so far (the source
`except` clause returns `{}`). -/
def bsLoop (lines builtins : List Line) : List TokEvent → BSState → SpanMap
  | [], st => st.spans.map (fun e => (e.1, sortSpans e.2))
  | .err :: _, _ => []
  | .tok t :: rest, st => bsLoop lines builtins rest (bsStep lines builtins st t)

/-- Source `build_syntax_spans`, over the token events of the joined
buffer.  The builtin-name set is an explicit parameter (the source queries
`dir(__builtins__)`). -/
def buildStyleSpans (lines builtins : List Line) (events : List TokEvent) : SpanMap :=
  bsLoop lines builtins events {}

/-- A line free of the characters `str.splitlines` treats as line
boundaries. -/
def BreakFree (l : Line) : Prop := ∀ c ∈ l, isLineBreak c = false

instance (l : Line) : Decidable (BreakFree l) := by
  unfold BreakFree; infer_instance

/-- Token kinds that can receive a style in `build_syntax_spans`. -/
def stylable (t : TokType) : Bool :=
  match t with
  | .COMMENT | .STRING | .NUMBER | .OP | .NAME => true
  | _ => false

/-- Well-formedness of one token span against the buffer it was scanned
from: 1-based lines, start not after end, end inside the buffer, end column
inside its line.  `tokenize.generate_tokens` guarantees this for every token
kind that can receive a style. -/
def TokWF (lines : List Line) (t : Tok) : Prop :=
  1 ≤ t.sLine ∧ t.sLine ≤ t.eLine ∧ (t.sLine = t.eLine → t.sCol ≤ t.eCol) ∧
    t.eLine ≤ lines.length ∧ t.eCol ≤ lineLen lines t.eLine

instance (lines : List Line) (t : Tok) : Decidable (TokWF lines t) := by
  unfold TokWF; infer_instance

/-- Position order on the token stream: the first token ends at or before
the point where the second starts.  `tokenize.generate_tokens` yields tokens
in this order. -/
def tokBefore (a b : Tok) : Prop :=
  a.eLine < b.sLine ∨ (a.eLine = b.sLine ∧ a.eCol ≤ b.sCol)

instance (a b : Tok) : Decidable (tokBefore a b) := by
  unfold tokBefore; infer_instance

/-- Lexicographic order on (line, column) positions. -/
def posLE (p q : Nat × Nat) : Prop := p.1 < q.1 ∨ (p.1 = q.1 ∧ p.2 ≤ q.2)

instance (p q : Nat × Nat) : Decidable (posLE p q) := by
  unfold posLE; infer_instance

/-- The per-line span properties claimed by the spec: spans are non-empty,
end inside the line and are pairwise non-overlapping in order. -/
def SpanListOK (lines : List Line) (ln : Nat) (l : List Span) : Prop :=
  (∀ s ∈ l, s.startCol < s.endCol ∧ s.endCol ≤ lineLen lines ln) ∧
    l.Pairwise (fun a b => a.endCol ≤ b.startCol)

/-- Invariant of the span map during the token loop: every recorded line
satisfies `SpanListOK` and every recorded span ends at or before the
frontier position `P` (the end of the last processed token). -/
def MapInv (lines : List Line) (P : Nat × Nat) (m : SpanMap) : Prop :=
  ∀ ln l, m.lookup ln = some l →
    SpanListOK lines ln l ∧ ∀ s ∈ l, posLE (ln, s.endCol) P

end PyEdit

namespace PyEdit

/-! ## Generic list lemmas used by the buffer proofs -/

theorem getD_append_right_len {α : Type} (A M : List α) (n : Nat) (d : α) :
    (A ++ M).getD (A.length + n) d = M.getD n d := by
  simp [List.getD_eq_getElem?_getD, List.getElem?_append_right]

theorem getD_append_left' {α : Type} (A M : List α) (n : Nat) (d : α)
    (h : n < A.length) : (A ++ M).getD n d = A.getD n d := by
  rw [List.getD_append _ _ _ _ h]

theorem set_append_right_len {α : Type} (A M : List α) (n : Nat) (v : α) :
    (A ++ M).set (A.length + n) v = A ++ M.set n v := by
  induction A with
  | nil => simp
  | cons a A ih => simp [Nat.succ_add, ih]

theorem take_append_right_len {α : Type} (A M : List α) (n : Nat) :
    (A ++ M).take (A.length + n) = A ++ M.take n := by
  simp [List.take_append]

theorem drop_append_right_len {α : Type} (A M : List α) (n : Nat) :
    (A ++ M).drop (A.length + n) = M.drop n := by
  simp [List.drop_append]

theorem list_decomp {α : Type} (l : List α) (n : Nat) (d : α) (h : n < l.length) :
    l = l.take n ++ l.getD n d :: l.drop (n + 1) := by
  rw [List.getD_eq_getElem l d h, List.getElem_cons_drop l n h, List.take_append_drop]

theorem length_take_of_lt {α : Type} (l : List α) (n : Nat) (h : n < l.length) :
    (l.take n).length = n := by
  simp [List.length_take]; omega

theorem getD_set_self {α : Type} :
    ∀ (l : List α) (n : Nat) (v d : α), n < l.length → (l.set n v).getD n d = v
  | [], n, _, _, h => absurd h (by simp)
  | _ :: _, 0, _, _, _ => rfl
  | _ :: l, n + 1, v, d, h =>
    getD_set_self l n v d (Nat.lt_of_succ_lt_succ (by simpa using h))

theorem getD_take_lt {α : Type} :
    ∀ (l : List α) (m n : Nat) (d : α), n < m → (l.take m).getD n d = l.getD n d
  | [], _, _, _, _ => by simp
  | _ :: _, 0, _, _, h => absurd h (by omega)
  | _ :: _, _ + 1, 0, _, _ => rfl
  | _ :: l, m + 1, n + 1, d, h =>
    getD_take_lt l m n d (Nat.lt_of_succ_lt_succ h)

/-! ## C1: the edit operations preserve the buffer invariant -/

theorem inv_deleteSelection (b : Buffer) (h : BufferInv b) :
    BufferInv (deleteSelection b) := by
  unfold deleteSelection
  cases hr : selectionRange b with
  | none => exact h
  | some se =>
    obtain ⟨s, e⟩ := se
    dsimp only
    split
    · exact h
    · refine ⟨?_, ?_, Nat.zero_le _⟩
      · dsimp only
        split
        · simp
        · assumption
      · dsimp only
        have hpos : 0 < (if b.lines.take (min s (b.lines.length - 1)) ++
            b.lines.drop (min e (b.lines.length - 1) + 1) = [] then ([[]] : List Line)
            else b.lines.take (min s (b.lines.length - 1)) ++
              b.lines.drop (min e (b.lines.length - 1) + 1)).length := by
          split
          · simp
          · rename_i hx
            exact List.length_pos.mpr hx
        omega

theorem inv_insertChar (b : Buffer) (ch : Line) (h : BufferInv b) :
    BufferInv (insertChar b ch) := by
  unfold insertChar
  set b' := if hasSelection b && !b.selecting then deleteSelection b else b with hb'
  have hinv : BufferInv b' := by
    rw [hb']
    split
    · exact inv_deleteSelection b h
    · exact h
  obtain ⟨h1, h2, h3⟩ := hinv
  refine ⟨?_, ?_, ?_⟩
  · dsimp only
    intro hcon
    have hlen := congrArg List.length hcon
    simp only [List.length_set, List.length_nil] at hlen
    exact h1 (List.eq_nil_of_length_eq_zero hlen)
  · dsimp only
    rw [List.length_set]
    exact h2
  · dsimp only
    rw [getD_set_self _ _ _ _ h2]
    simp only [List.length_append, List.length_take, List.length_drop]
    omega

theorem inv_backspace (b : Buffer) (h : BufferInv b) : BufferInv (backspace b) := by
  obtain ⟨h1, h2, h3⟩ := h
  unfold backspace
  split
  · exact inv_deleteSelection b ⟨h1, h2, h3⟩
  · split
    · rename_i hx
      refine ⟨?_, ?_, ?_⟩
      · dsimp only
        intro hcon
        have hlen := congrArg List.length hcon
        simp only [List.length_set, List.length_nil] at hlen
        exact h1 (List.eq_nil_of_length_eq_zero hlen)
      · dsimp only
        rw [List.length_set]
        exact h2
      · dsimp only
        rw [getD_set_self _ _ _ _ h2]
        simp only [List.length_append, List.length_take, List.length_drop]
        omega
    · split
      · exact ⟨h1, h2, h3⟩
      · rename_i hx hy
        have hy1 : 1 ≤ b.cursor_y := Nat.one_le_iff_ne_zero.mpr hy
        have hlen2 : 2 ≤ b.lines.length := by omega
        have hlenpop : (pyPop (b.lines.set (b.cursor_y - 1)
            ((b.lines.getD (b.cursor_y - 1) []) ++ (b.lines.getD b.cursor_y [])))
            b.cursor_y).length = b.lines.length - 1 := by
          unfold pyPop
          simp only [List.length_append, List.length_take, List.length_drop,
            List.length_set]
          omega
        refine ⟨?_, ?_, ?_⟩
        · dsimp only
          intro hcon
          have hlen := congrArg List.length hcon
          rw [hlenpop] at hlen
          simp at hlen
          omega
        · dsimp only
          rw [hlenpop]
          omega
        · dsimp only
          unfold pyPop
          have htk : (b.cursor_y - 1) <
              (List.take b.cursor_y (b.lines.set (b.cursor_y - 1)
                ((b.lines.getD (b.cursor_y - 1) []) ++
                  (b.lines.getD b.cursor_y [])))).length := by
            simp only [List.length_take, List.length_set]
            omega
          rw [getD_append_left' _ _ _ _ htk, getD_take_lt _ _ _ _ (by omega),
            getD_set_self _ _ _ _ (by omega)]
          simp

theorem inv_deleteForward (b : Buffer) (h : BufferInv b) :
    BufferInv (deleteForward b) := by
  obtain ⟨h1, h2, h3⟩ := h
  unfold deleteForward
  split
  · exact inv_deleteSelection b ⟨h1, h2, h3⟩
  · dsimp only
    split
    · rename_i hx
      refine ⟨?_, ?_, ?_⟩
      · intro hcon
        have hlen := congrArg List.length hcon
        simp only [List.length_set, List.length_nil] at hlen
        exact h1 (List.eq_nil_of_length_eq_zero hlen)
      · rw [List.length_set]
        exact h2
      · rw [getD_set_self _ _ _ _ h2]
        simp only [List.length_append, List.length_take, List.length_drop]
        omega
    · split
      · exact ⟨h1, h2, h3⟩
      · rename_i hx hy
        have hy1 : b.cursor_y + 1 < b.lines.length := by omega
        have hlenpop : (pyPop (b.lines.set b.cursor_y
            ((b.lines.getD b.cursor_y []) ++ (b.lines.getD (b.cursor_y + 1) [])))
            (b.cursor_y + 1)).length = b.lines.length - 1 := by
          unfold pyPop
          simp only [List.length_append, List.length_take, List.length_drop,
            List.length_set]
          omega
        refine ⟨?_, ?_, ?_⟩
        · dsimp only
          intro hcon
          have hlen := congrArg List.length hcon
          rw [hlenpop] at hlen
          simp at hlen
          omega
        · dsimp only
          rw [hlenpop]
          omega
        · dsimp only
          unfold pyPop
          have htk : b.cursor_y <
              (List.take (b.cursor_y + 1) (b.lines.set b.cursor_y
                ((b.lines.getD b.cursor_y []) ++
                  (b.lines.getD (b.cursor_y + 1) [])))).length := by
            simp only [List.length_take, List.length_set]
            omega
          rw [getD_append_left' _ _ _ _ htk, getD_take_lt _ _ _ _ (by omega),
            getD_set_self _ _ _ _ (by omega)]
          simp only [List.length_append]
          omega

/-- C1: starting from any buffer satisfying the data-model invariants, any
finite sequence of insert-char, backspace and delete-forward operations
leaves a buffer that still has at least one line and whose cursor still
satisfies the bounds invariant. -/
theorem c1_edit_ops_preserve_invariant (ops : List Op) (b : Buffer)
    (h : BufferInv b) : BufferInv (applyOps ops b) := by
  induction ops generalizing b with
  | nil => exact h
  | cons op ops ih =>
    cases op with
    | insert ch => exact ih _ (inv_insertChar b ch h)
    | backspace => exact ih _ (inv_backspace b h)
    | deleteForward => exact ih _ (inv_deleteForward b h)

/-- Witness for C1 at a concrete buffer and operation sequence. -/
theorem c1_witness :
    BufferInv ({ lines := [s2l "ab"], cursor_y := 0, cursor_x := 1 } : Buffer) ∧
    BufferInv (applyOps [Op.insert (s2l "xy"), Op.backspace, Op.deleteForward,
        Op.backspace, Op.backspace, Op.backspace]
      { lines := [s2l "ab"], cursor_y := 0, cursor_x := 1 }) :=
  ⟨by decide, c1_edit_ops_preserve_invariant _ _ (by decide)⟩

/-! ## C2: saving then loading a buffer -/

theorem slGo_cons_nobreak (c : Char) (l acc : List Char) (hc : isLineBreak c = false) :
    slGo (c :: l) acc = slGo l (c :: acc) := by
  have hcr : c ≠ '\r' := by
    intro h
    rw [h] at hc
    simp [isLineBreak] at hc
  rw [slGo.eq_def]
  split
  · rename_i h; cases h
  · rename_i h
    rw [List.cons_eq_cons] at h
    exact absurd h.1 hcr
  · rename_i h
    rw [List.cons_eq_cons] at h
    obtain ⟨h1, h2⟩ := h
    subst h1; subst h2
    simp [hc]

theorem slGo_cons_nl (l acc : List Char) :
    slGo ('\n' :: l) acc = acc.reverse :: slGo l [] := by
  rw [slGo.eq_def]
  split
  · rename_i h; cases h
  · rename_i h
    rw [List.cons_eq_cons] at h
    exact absurd h.1 (by decide)
  · rename_i h
    rw [List.cons_eq_cons] at h
    obtain ⟨h1, h2⟩ := h
    subst h1; subst h2
    simp [show isLineBreak '\n' = true from by decide]

theorem slGo_append (l : List Char) (hl : BreakFree l) :
    ∀ (s acc : List Char), slGo (l ++ s) acc = slGo s (l.reverse ++ acc) := by
  induction l with
  | nil => intro s acc; simp
  | cons c cs ih =>
    intro s acc
    have hc : isLineBreak c = false := hl c (by simp)
    have hcs : BreakFree cs := fun d hd => hl d (List.mem_cons_of_mem _ hd)
    rw [List.cons_append, slGo_cons_nobreak c _ _ hc, ih hcs]
    simp

theorem slGo_ne_nil : ∀ (t acc : List Char), t ≠ [] ∨ acc ≠ [] → slGo t acc ≠ [] := by
  intro t
  induction t with
  | nil =>
    intro acc h
    rcases h with h | h
    · exact absurd rfl h
    · simp [slGo, h]
  | cons c cs ih =>
    intro acc hd
    rw [slGo.eq_def]
    split
    · rename_i heq; cases heq
    · simp
    · rename_i heq
      rw [List.cons_eq_cons] at heq
      obtain ⟨h1, h2⟩ := heq
      subst h1; subst h2
      by_cases hbr : isLineBreak c = true
      · simp [hbr]
      · rw [if_neg hbr]
        exact ih _ (Or.inr (by simp))

theorem splitlines_ne_nil (t : Line) (h : t ≠ []) : splitlines t ≠ [] :=
  slGo_ne_nil t [] (Or.inl h)

theorem splitlines_single (l : Line) (hbf : BreakFree l) (hne : l ≠ []) :
    splitlines l = [l] := by
  unfold splitlines
  rw [show l = l ++ [] from by simp, slGo_append l hbf [] []]
  simp [slGo, hne]

theorem splitlines_break (l : Line) (rest : Line) (hbf : BreakFree l) :
    splitlines (l ++ '\n' :: rest) = l :: splitlines rest := by
  unfold splitlines
  rw [slGo_append l hbf ('\n' :: rest) [], slGo_cons_nl]
  simp

theorem getLast?_no_break (l : Line) (hbf : BreakFree l) : l.getLast? ≠ some '\n' := by
  intro hlast
  have hm : '\n' ∈ l := List.mem_of_mem_getLast? (Option.mem_def.mpr hlast)
  have := hbf '\n' hm
  simp [isLineBreak] at this

theorem load_file_eq (text : Line) :
    load_file text =
      if (if text.getLast? = some '\n' then splitlines text ++ [[]] else splitlines text) = []
      then [[]]
      else if text.getLast? = some '\n' then splitlines text ++ [[]] else splitlines text := rfl

/-- C2 counterexample: the claim quantifies over every non-empty list of
lines, but a line that itself contains a line-feed character does not
round-trip: saving `["\n"]` writes the single character `"\n"`, which loads
back as the two lines `["", ""]`. -/
theorem c2_counterexample :
    ([['\n']] : List Line) ≠ [] ∧ load_file (save_file [['\n']]) ≠ [['\n']] :=
  ⟨by decide, by decide⟩

/-- C2 amended: for every non-empty list of lines none of whose characters
is a line-boundary character of `str.splitlines`, saving (joining with
line feeds) and then loading the written text yields exactly the same
list of lines. -/
theorem c2_save_load_roundtrip (ls : List Line) (hne : ls ≠ [])
    (hbf : ∀ l ∈ ls, BreakFree l) : load_file (save_file ls) = ls := by
  induction ls with
  | nil => exact absurd rfl hne
  | cons l rest ih =>
    cases rest with
    | nil =>
      by_cases hl : l = []
      · subst hl; decide
      · have hbl : BreakFree l := hbf l (by simp)
        show load_file l = [l]
        rw [load_file_eq, if_neg (getLast?_no_break l hbl), splitlines_single l hbl hl]
        simp
    | cons l2 rest2 =>
      have hbl : BreakFree l := hbf l (by simp)
      have hbrest : ∀ x ∈ l2 :: rest2, BreakFree x :=
        fun x hx => hbf x (List.mem_cons_of_mem _ hx)
      show load_file (l ++ '\n' :: save_file (l2 :: rest2)) = l :: l2 :: rest2
      by_cases hJ : save_file (l2 :: rest2) = []
      · have h23 : l2 = [] ∧ rest2 = [] := by
          cases rest2 with
          | nil => exact ⟨by simpa [save_file, joinNL] using hJ, rfl⟩
          | cons l3 rest3 =>
            exfalso
            have hstep : save_file (l2 :: l3 :: rest3) =
                l2 ++ '\n' :: save_file (l3 :: rest3) := rfl
            rw [hstep] at hJ
            simp at hJ
        obtain ⟨h2, h3⟩ := h23
        subst h2; subst h3
        rw [hJ, load_file_eq, splitlines_break l [] hbl]
        have hlast : (l ++ '\n' :: ([] : Line)).getLast? = some '\n' := by
          rw [List.getLast?_append_of_ne_nil l (by simp)]
          rfl
        rw [if_pos hlast, if_neg (by simp)]
        simp [splitlines, slGo]
      · have hres : load_file (save_file (l2 :: rest2)) = l2 :: rest2 :=
          ih (by simp) hbrest
        rw [load_file_eq] at hres ⊢
        rw [splitlines_break l _ hbl]
        have hlast : (l ++ '\n' :: save_file (l2 :: rest2)).getLast? =
            (save_file (l2 :: rest2)).getLast? := by
          rw [List.getLast?_append_of_ne_nil l (by simp)]
          rw [show ('\n' :: save_file (l2 :: rest2)) = ['\n'] ++ save_file (l2 :: rest2)
            from rfl]
          rw [List.getLast?_append_of_ne_nil ['\n'] hJ]
        rw [hlast]
        by_cases hnl : (save_file (l2 :: rest2)).getLast? = some '\n'
        · rw [if_pos hnl] at hres ⊢
          rw [if_neg (by simp)] at hres
          rw [if_neg (by simp)]
          rw [List.cons_append, hres]
        · rw [if_neg hnl] at hres ⊢
          rw [if_neg (splitlines_ne_nil _ hJ)] at hres
          rw [if_neg (by simp)]
          rw [hres]

/-- Witness for the amended C2 round-trip at a concrete buffer whose last
line is empty (the saved text ends in a line feed). -/
theorem c2_witness :
    ([s2l "a", s2l ""] : List Line) ≠ [] ∧
    (∀ l ∈ ([s2l "a", s2l ""] : List Line), BreakFree l) ∧
    load_file (save_file [s2l "a", s2l ""]) = [s2l "a", s2l ""] :=
  ⟨by decide, by decide, c2_save_load_roundtrip _ (by decide) (by decide)⟩

/-! ## Newline: helper lemmas for C3 and C8 -/

theorem set_at_of_len {α : Type} (A : List α) (x : α) (B : List α) (v : α) (n : Nat)
    (h : A.length = n) : (A ++ x :: B).set n v = A ++ v :: B := by
  subst h
  simpa using set_append_right_len A (x :: B) 0 v

theorem getD_at_of_len {α : Type} (A : List α) (x : α) (B : List α) (d : α) (n : Nat)
    (h : A.length = n) : (A ++ x :: B).getD n d = x := by
  subst h
  simpa using getD_append_right_len A (x :: B) 0 d

theorem getD_at_of_len_succ {α : Type} (A : List α) (x y : α) (B : List α) (d : α)
    (n : Nat) (h : A.length = n) : (A ++ x :: y :: B).getD (n + 1) d = y := by
  subst h
  simpa using getD_append_right_len A (x :: y :: B) 1 d

theorem pyInsert_at_of_len_succ {α : Type} (A : List α) (x : α) (B : List α) (y : α)
    (n : Nat) (h : A.length = n) : pyInsert (A ++ x :: B) (n + 1) y = A ++ x :: y :: B := by
  subst h
  unfold pyInsert
  rw [show A.length + 1 = A.length + 1 from rfl, take_append_right_len, drop_append_right_len]
  simp

theorem pyPop_at_of_len_succ {α : Type} (A : List α) (x y : α) (B : List α) (n : Nat)
    (h : A.length = n) : pyPop (A ++ x :: y :: B) (n + 1) = A ++ x :: B := by
  subst h
  unfold pyPop
  rw [take_append_right_len, show A.length + 1 + 1 = A.length + 2 from rfl,
    drop_append_right_len]
  simp

theorem length_sub_lstrip (l : Line) :
    l.length - (lstripSpaces l).length = leadingSpaces l := by
  have h := congrArg List.length
    (List.takeWhile_append_dropWhile (p := fun c => c == ' ') (l := l))
  simp only [List.length_append] at h
  unfold leadingSpaces lstripSpaces
  omega

theorem leadingSpaces_take (l : Line) :
    ∀ n : Nat, leadingSpaces (l.take n) = min n (leadingSpaces l) := by
  induction l with
  | nil => intro n; simp [leadingSpaces]
  | cons c cs ih =>
    intro n
    cases n with
    | zero => simp [leadingSpaces]
    | succ n =>
      rw [List.take_succ_cons]
      by_cases hc : (c == ' ') = true
      · simp only [leadingSpaces, List.takeWhile_cons, hc, if_true, List.length_cons]
        have := ih n
        unfold leadingSpaces at this
        omega
      · simp only [leadingSpaces, List.takeWhile_cons, hc, if_false, Bool.false_eq_true,
          List.length_nil]
        omega

theorem lstrip_of_no_leading (l : Line) (h : leadingSpaces l = 0) :
    lstripSpaces l = l := by
  unfold leadingSpaces at h
  have h0 : l.takeWhile (fun c => c == ' ') = [] := List.eq_nil_of_length_eq_zero h
  have htd := List.takeWhile_append_dropWhile (p := fun c => c == ' ') (l := l)
  rw [h0] at htd
  simpa [lstripSpaces] using htd

theorem leadingSpaces_replicate_append (k : Nat) (l : Line) :
    leadingSpaces (List.replicate k ' ' ++ l) = k + leadingSpaces l := by
  induction k with
  | zero => simp
  | succ k ih =>
    rw [List.replicate_succ, List.cons_append]
    simp only [leadingSpaces, List.takeWhile_cons, show ((' ' : Char) == ' ') = true from rfl,
      if_true, List.length_cons] at ih ⊢
    omega

theorem leadingSpaces_lstrip (l : Line) : leadingSpaces (lstripSpaces l) = 0 := by
  induction l with
  | nil => rfl
  | cons c cs ih =>
    by_cases hc : (c == ' ') = true
    · simpa [lstripSpaces, List.dropWhile_cons, hc] using ih
    · simp [leadingSpaces, lstripSpaces, List.dropWhile_cons, hc, List.takeWhile_cons]

/-- The effect of `newline` on an unselected buffer, with the inserted
indentation expressed through `leadingSpaces`. -/
theorem newline_eq (b : Buffer) (hsel : hasSelection b = false) :
    newline b = { b with
      lines := pyInsert
        (b.lines.set b.cursor_y ((b.lines.getD b.cursor_y []).take b.cursor_x))
        (b.cursor_y + 1)
        (List.replicate
          (leadingSpaces ((b.lines.getD b.cursor_y []).take b.cursor_x) +
            (if (rstripPy ((b.lines.getD b.cursor_y []).take b.cursor_x)).getLast? =
                some ':' then INDENT_WIDTH else 0)) ' ' ++
          lstripSpaces ((b.lines.getD b.cursor_y []).drop b.cursor_x)),
      cursor_y := b.cursor_y + 1,
      cursor_x := leadingSpaces ((b.lines.getD b.cursor_y []).take b.cursor_x) +
        (if (rstripPy ((b.lines.getD b.cursor_y []).take b.cursor_x)).getLast? =
            some ':' then INDENT_WIDTH else 0),
      preferred_x := leadingSpaces ((b.lines.getD b.cursor_y []).take b.cursor_x) +
        (if (rstripPy ((b.lines.getD b.cursor_y []).take b.cursor_x)).getLast? =
            some ':' then INDENT_WIDTH else 0),
      dirty := true } := by
  unfold newline
  rw [show (hasSelection b && !b.selecting) = false from by rw [hsel]; rfl]
  simp only [Bool.false_eq_true, if_false]
  rw [length_sub_lstrip]

/-- The merge branch of `backspace`: no selection, column 0, non-first
line. -/
theorem backspace_merge (c : Buffer) (hsel : hasSelection c = false)
    (hx : c.cursor_x = 0) (hy : c.cursor_y ≠ 0) :
    backspace c = { c with
      lines := pyPop (c.lines.set (c.cursor_y - 1)
        ((c.lines.getD (c.cursor_y - 1) []) ++ (c.lines.getD c.cursor_y []))) c.cursor_y,
      cursor_y := c.cursor_y - 1,
      cursor_x := (c.lines.getD (c.cursor_y - 1) []).length,
      preferred_x := (c.lines.getD (c.cursor_y - 1) []).length,
      dirty := true } := by
  unfold backspace
  rw [show (hasSelection c && !c.selecting) = false from by rw [hsel]; rfl]
  simp only [Bool.false_eq_true, if_false]
  rw [hx]
  simp only [Nat.lt_irrefl, if_false]
  rw [if_neg hy]

/-! ## C3: newline followed by backspace -/

/-- C3 counterexample: with the cursor at the end of the indented line
`"  a"`, `newline` auto-indents the new line with two spaces and leaves the
cursor after them, so the following `backspace` merely deletes one of those
spaces instead of re-joining the lines: the buffer becomes
`["  a", " "]`, not `["  a"]`. -/
theorem c3_counterexample :
    BufferInv ({ lines := [s2l "  a"], cursor_y := 0, cursor_x := 3 } : Buffer) ∧
    hasSelection ({ lines := [s2l "  a"], cursor_y := 0, cursor_x := 3 } : Buffer) = false ∧
    (backspace (newline
      ({ lines := [s2l "  a"], cursor_y := 0, cursor_x := 3 } : Buffer))).lines =
      [s2l "  a", s2l " "] ∧
    (backspace (newline
      ({ lines := [s2l "  a"], cursor_y := 0, cursor_x := 3 } : Buffer))).lines ≠
      ({ lines := [s2l "  a"], cursor_y := 0, cursor_x := 3 } : Buffer).lines := by
  refine ⟨by decide, by decide, by decide, by decide⟩

/-- C3 amended: for a buffer with no active selection, `newline` followed by
`backspace` restores the original lines and cursor position provided the
text before the cursor carries no leading spaces and does not end in a colon
after right-stripping (so no automatic indentation is inserted) and the text
after the cursor does not begin with a space (so nothing is stripped from
the new line). -/
theorem c3_newline_backspace_roundtrip (b : Buffer) (hinv : BufferInv b)
    (hsel : hasSelection b = false)
    (hind : leadingSpaces ((b.lines.getD b.cursor_y []).take b.cursor_x) = 0)
    (hcol : (rstripPy ((b.lines.getD b.cursor_y []).take b.cursor_x)).getLast? ≠ some ':')
    (haft : leadingSpaces ((b.lines.getD b.cursor_y []).drop b.cursor_x) = 0) :
    (backspace (newline b)).lines = b.lines ∧
    (backspace (newline b)).cursor_y = b.cursor_y ∧
    (backspace (newline b)).cursor_x = b.cursor_x := by
  obtain ⟨h1, h2, h3⟩ := hinv
  have hA : (b.lines.take b.cursor_y).length = b.cursor_y := length_take_of_lt _ _ h2
  have hdec : b.lines = b.lines.take b.cursor_y ++
      (b.lines.getD b.cursor_y []) :: b.lines.drop (b.cursor_y + 1) :=
    list_decomp _ _ [] h2
  have hnew := newline_eq b hsel
  rw [hind, if_neg hcol, lstrip_of_no_leading _ haft] at hnew
  simp only [Nat.add_zero, List.replicate_zero, List.nil_append] at hnew
  rw [show b.lines.set b.cursor_y ((b.lines.getD b.cursor_y []).take b.cursor_x) =
      b.lines.take b.cursor_y ++
        ((b.lines.getD b.cursor_y []).take b.cursor_x) :: b.lines.drop (b.cursor_y + 1)
    from by
      conv_lhs => rw [hdec]
      rw [set_at_of_len _ _ _ _ _ hA, getD_at_of_len _ _ _ _ _ hA]] at hnew
  rw [pyInsert_at_of_len_succ _ _ _ _ _ hA] at hnew
  have hselR : hasSelection (newline b) = false := by rw [hnew]; exact hsel
  have hxR : (newline b).cursor_x = 0 := by rw [hnew]
  have hyR : (newline b).cursor_y ≠ 0 := by rw [hnew]; exact Nat.succ_ne_zero _
  have hlR : (newline b).lines = b.lines.take b.cursor_y ++
      ((b.lines.getD b.cursor_y []).take b.cursor_x) ::
      ((b.lines.getD b.cursor_y []).drop b.cursor_x) :: b.lines.drop (b.cursor_y + 1) := by
    rw [hnew]
  have hy2 : (newline b).cursor_y = b.cursor_y + 1 := by rw [hnew]
  rw [backspace_merge _ hselR hxR hyR]
  refine ⟨?_, ?_, ?_⟩
  · dsimp only
    rw [hlR, hy2]
    simp only [Nat.add_sub_cancel]
    rw [getD_at_of_len _ _ _ _ _ hA, getD_at_of_len_succ _ _ _ _ _ _ hA,
      set_at_of_len _ _ _ _ _ hA, pyPop_at_of_len_succ _ _ _ _ _ hA,
      List.take_append_drop]
    exact hdec.symm
  · dsimp only
    rw [hy2]
    omega
  · dsimp only
    rw [hlR, hy2]
    simp only [Nat.add_sub_cancel]
    rw [getD_at_of_len _ _ _ _ _ hA]
    simp only [List.length_take]
    omega

/-- Witness for the amended C3 at a concrete buffer. -/
theorem c3_witness :
    BufferInv ({ lines := [s2l "ab"], cursor_y := 0, cursor_x := 1 } : Buffer) ∧
    (backspace (newline
      ({ lines := [s2l "ab"], cursor_y := 0, cursor_x := 1 } : Buffer))).lines =
      [s2l "ab"] ∧
    (backspace (newline
      ({ lines := [s2l "ab"], cursor_y := 0, cursor_x := 1 } : Buffer))).cursor_x = 1 := by
  have h := c3_newline_backspace_roundtrip
    ({ lines := [s2l "ab"], cursor_y := 0, cursor_x := 1 } : Buffer)
    (by decide) (by decide) (by decide) (by decide) (by decide)
  exact ⟨by decide, h.1, h.2.2⟩

/-! ## C8: the newline split -/

/-- C8 counterexample: on the line `"    x"` with the cursor at column 1
(inside the leading whitespace) and no selection, `newline` produces the
lines `[" ", " x"]`: the new line's leading indentation is 1, not the
original line's 4, and two of the original five characters are lost, so the
split does not preserve the content up to inserted indentation. -/
theorem c8_counterexample :
    BufferInv ({ lines := [s2l "    x"], cursor_y := 0, cursor_x := 1 } : Buffer) ∧
    hasSelection ({ lines := [s2l "    x"], cursor_y := 0, cursor_x := 1 } : Buffer) = false ∧
    (newline ({ lines := [s2l "    x"], cursor_y := 0, cursor_x := 1 } : Buffer)).lines =
      [s2l " ", s2l " x"] ∧
    leadingSpaces (s2l "    x") = 4 ∧
    leadingSpaces ((newline
      ({ lines := [s2l "    x"], cursor_y := 0, cursor_x := 1 } : Buffer)).lines.getD 1 []) =
      1 ∧
    ((newline ({ lines := [s2l "    x"], cursor_y := 0, cursor_x := 1 } : Buffer)).lines.getD
        0 []).length +
      ((newline ({ lines := [s2l "    x"], cursor_y := 0, cursor_x := 1 } : Buffer)).lines.getD
        1 []).length < (s2l "    x").length := by
  refine ⟨by decide, by decide, by decide, by decide, by decide, by decide⟩

/-- C8 amended: for a buffer with no active selection whose cursor satisfies
the invariant, `newline` splits the cursor line into the text before the
cursor and a new line made of the stripped text after the cursor prefixed by
one space per leading space of the text before the cursor (not of the whole
line — the two agree exactly when the cursor sits at or beyond the end of
the line's leading whitespace), plus one extra indent unit exactly when the
right-stripped text before the cursor ends with a colon; the cursor lands on
the new line just after that indentation. -/
theorem c8_newline_split (b : Buffer) (hinv : BufferInv b)
    (hsel : hasSelection b = false) :
    (newline b).lines.length = b.lines.length + 1 ∧
    (newline b).lines.getD b.cursor_y [] = (b.lines.getD b.cursor_y []).take b.cursor_x ∧
    (newline b).lines.getD (b.cursor_y + 1) [] =
      List.replicate
        (leadingSpaces ((b.lines.getD b.cursor_y []).take b.cursor_x) +
          (if (rstripPy ((b.lines.getD b.cursor_y []).take b.cursor_x)).getLast? =
              some ':' then INDENT_WIDTH else 0)) ' ' ++
        lstripSpaces ((b.lines.getD b.cursor_y []).drop b.cursor_x) ∧
    leadingSpaces ((newline b).lines.getD (b.cursor_y + 1) []) =
      leadingSpaces ((b.lines.getD b.cursor_y []).take b.cursor_x) +
        (if (rstripPy ((b.lines.getD b.cursor_y []).take b.cursor_x)).getLast? =
            some ':' then INDENT_WIDTH else 0) ∧
    (leadingSpaces (b.lines.getD b.cursor_y []) ≤ b.cursor_x →
      leadingSpaces ((b.lines.getD b.cursor_y []).take b.cursor_x) =
        leadingSpaces (b.lines.getD b.cursor_y [])) ∧
    (newline b).cursor_y = b.cursor_y + 1 ∧
    (newline b).cursor_x = leadingSpaces ((newline b).lines.getD (b.cursor_y + 1) []) := by
  obtain ⟨h1, h2, h3⟩ := hinv
  have hA : (b.lines.take b.cursor_y).length = b.cursor_y := length_take_of_lt _ _ h2
  have hdec : b.lines = b.lines.take b.cursor_y ++
      (b.lines.getD b.cursor_y []) :: b.lines.drop (b.cursor_y + 1) :=
    list_decomp _ _ [] h2
  have hnew := newline_eq b hsel
  rw [show b.lines.set b.cursor_y ((b.lines.getD b.cursor_y []).take b.cursor_x) =
      b.lines.take b.cursor_y ++
        ((b.lines.getD b.cursor_y []).take b.cursor_x) :: b.lines.drop (b.cursor_y + 1)
    from by
      conv_lhs => rw [hdec]
      rw [set_at_of_len _ _ _ _ _ hA, getD_at_of_len _ _ _ _ _ hA]] at hnew
  rw [pyInsert_at_of_len_succ _ _ _ _ _ hA] at hnew
  have hlR : (newline b).lines = b.lines.take b.cursor_y ++
      ((b.lines.getD b.cursor_y []).take b.cursor_x) ::
      (List.replicate
        (leadingSpaces ((b.lines.getD b.cursor_y []).take b.cursor_x) +
          (if (rstripPy ((b.lines.getD b.cursor_y []).take b.cursor_x)).getLast? =
              some ':' then INDENT_WIDTH else 0)) ' ' ++
        lstripSpaces ((b.lines.getD b.cursor_y []).drop b.cursor_x)) ::
      b.lines.drop (b.cursor_y + 1) := by
    rw [hnew]
  refine ⟨?_, ?_, ?_, ?_, ?_, ?_, ?_⟩
  · rw [hlR]
    have hlen := congrArg List.length hdec
    simp only [List.length_append, List.length_cons] at hlen ⊢
    omega
  · rw [hlR, getD_at_of_len _ _ _ _ _ hA]
  · rw [hlR, getD_at_of_len_succ _ _ _ _ _ _ hA]
  · rw [hlR, getD_at_of_len_succ _ _ _ _ _ _ hA,
      leadingSpaces_replicate_append, leadingSpaces_lstrip]
    omega
  · intro hle
    rw [leadingSpaces_take]
    omega
  · rw [hnew]
  · rw [hlR, getD_at_of_len_succ _ _ _ _ _ _ hA,
      leadingSpaces_replicate_append, leadingSpaces_lstrip, hnew]
    dsimp only
    omega

/-- Witness for the amended C8 on the spec's `def`-line example: splitting
`"def f():"` at the end inserts one indent unit on the new line. -/
theorem c8_witness :
    BufferInv ({ lines := [s2l "def f():"], cursor_y := 0, cursor_x := 8 } : Buffer) ∧
    (newline ({ lines := [s2l "def f():"], cursor_y := 0, cursor_x := 8 } :
      Buffer)).lines.getD 1 [] = s2l "    " ∧
    (newline ({ lines := [s2l "def f():"], cursor_y := 0, cursor_x := 8 } :
      Buffer)).cursor_x = 4 := by
  have h := c8_newline_split
    ({ lines := [s2l "def f():"], cursor_y := 0, cursor_x := 8 } : Buffer)
    (by decide) (by decide)
  refine ⟨by decide, ?_, ?_⟩
  · rw [h.2.2.1]; decide
  · rw [h.2.2.2.2.2.2]; decide

/-! ## C5: spans of a line are sorted, disjoint and inside the line -/

theorem posLE_trans {a b c : Nat × Nat} (h1 : posLE a b) (h2 : posLE b c) : posLE a c := by
  unfold posLE at *
  omega

theorem tok_start_le_end (lines : List Line) (t : Tok) (h : TokWF lines t) :
    posLE (t.sLine, t.sCol) (t.eLine, t.eCol) := by
  obtain ⟨_, h2, h3, _, _⟩ := h
  rcases Nat.lt_or_ge t.sLine t.eLine with hlt | hge
  · exact Or.inl hlt
  · have he : t.sLine = t.eLine := by omega
    exact Or.inr ⟨he, h3 he⟩

theorem MapInv_mono (lines : List Line) (P P' : Nat × Nat) (m : SpanMap)
    (h : MapInv lines P m) (hpp : posLE P P') : MapInv lines P' m := by
  intro ln l hl
  obtain ⟨hok, hfr⟩ := h ln l hl
  exact ⟨hok, fun s hs => posLE_trans (hfr s hs) hpp⟩

theorem MapInv_empty (lines : List Line) (P : Nat × Nat) : MapInv lines P [] := by
  intro ln l hl
  simp [List.lookup] at hl

theorem lookup_addSpanEntry (ln' : Nat) :
    ∀ (m : SpanMap) (ln : Nat) (s : Span),
      (addSpanEntry m ln s).lookup ln' =
        if ln' = ln then some (((m.lookup ln').getD []) ++ [s]) else m.lookup ln' := by
  intro m
  induction m with
  | nil =>
    intro ln s
    by_cases h : ln' = ln
    · subst h
      simp [addSpanEntry, List.lookup]
    · simp [addSpanEntry, List.lookup, if_neg h,
        show (ln' == ln) = false from by simpa using h]
  | cons kv rest ih =>
    intro ln s
    obtain ⟨k, lk⟩ := kv
    by_cases hk : k = ln
    · subst hk
      rw [addSpanEntry, if_pos rfl]
      by_cases h : ln' = k
      · subst h
        simp [List.lookup]
      · rw [if_neg h]
        simp [List.lookup, show (ln' == k) = false from by simpa using h]
    · rw [addSpanEntry, if_neg hk]
      by_cases h : ln' = k
      · subst h
        rw [if_neg hk]
        simp [List.lookup]
      · have hlk : (ln' == k) = false := by simpa using h
        simp only [List.lookup, hlk]
        exact ih ln s

theorem addSpan_inv (lines : List Line) (m : SpanMap) (P : Nat × Nat)
    (ln s e : Nat) (sty : Style) (hInv : MapInv lines P m) (hP : posLE P (ln, s))
    (he : e ≤ lineLen lines ln) :
    MapInv lines (ln, max s e) (addSpan m ln s e sty) := by
  have hmax : posLE P (ln, max s e) :=
    posLE_trans hP (Or.inr ⟨rfl, Nat.le_max_left s e⟩)
  by_cases hse : e ≤ s
  · rw [addSpan, if_pos hse]
    exact MapInv_mono lines P _ m hInv hmax
  · rw [addSpan, if_neg hse]
    intro ln' l' hl'
    rw [lookup_addSpanEntry] at hl'
    by_cases hln : ln' = ln
    · subst hln
      rw [if_pos rfl] at hl'
      injection hl' with hl'
      subst hl'
      have hold : ∀ x ∈ (m.lookup ln').getD [], (x.startCol < x.endCol ∧
          x.endCol ≤ lineLen lines ln') ∧ x.endCol ≤ s := by
        intro x hx
        cases hlk : m.lookup ln' with
        | none => rw [hlk] at hx; simp at hx
        | some lOld =>
          rw [hlk] at hx
          simp only [Option.getD_some] at hx
          obtain ⟨⟨hb, _⟩, hfr⟩ := hInv ln' lOld hlk
          have hfx := hfr x hx
          have hcomb := posLE_trans hfx hP
          refine ⟨hb x hx, ?_⟩
          unfold posLE at hcomb
          omega
      have holdPW : ((m.lookup ln').getD []).Pairwise
          (fun a b => a.endCol ≤ b.startCol) := by
        cases hlk : m.lookup ln' with
        | none => simp
        | some lOld =>
          obtain ⟨⟨_, hpw⟩, _⟩ := hInv ln' lOld hlk
          simpa using hpw
      refine ⟨⟨?_, ?_⟩, ?_⟩
      · intro x hx
        rw [List.mem_append] at hx
        rcases hx with hx | hx
        · exact (hold x hx).1
        · simp only [List.mem_singleton] at hx
          subst hx
          exact ⟨show s < e by omega, show e ≤ _ from he⟩
      · rw [List.pairwise_append]
        refine ⟨holdPW, by simp, ?_⟩
        intro a ha b hb
        simp only [List.mem_singleton] at hb
        subst hb
        exact (hold a ha).2
      · intro x hx
        rw [List.mem_append] at hx
        rcases hx with hx | hx
        · exact Or.inr ⟨rfl, by have := (hold x hx).2; omega⟩
        · simp only [List.mem_singleton] at hx
          subst hx
          exact Or.inr ⟨rfl, Nat.le_max_right s e⟩
    · rw [if_neg hln] at hl'
      obtain ⟨hok, hfr⟩ := hInv ln' l' hl'
      exact ⟨hok, fun x hx => posLE_trans (hfr x hx) hmax⟩

theorem middle_fold_inv (lines : List Line) (sty : Style) :
    ∀ (k lo : Nat) (m : SpanMap) (P : Nat × Nat), MapInv lines P m → P.1 < lo →
      ∃ P', MapInv lines P'
          ((List.range' lo k).foldl
            (fun m ln => if 1 ≤ ln ∧ ln - 1 < lines.length then
                addSpan m ln 0 (lineLen lines ln) sty else m) m) ∧ P'.1 < lo + k := by
  intro k
  induction k with
  | zero =>
    intro lo m P h hlt
    exact ⟨P, by simpa [List.range'] using h, by omega⟩
  | succ k ih =>
    intro lo m P h hlt
    rw [List.range'_succ lo k 1, List.foldl_cons]
    by_cases hg : 1 ≤ lo ∧ lo - 1 < lines.length
    · rw [if_pos hg]
      have h1 := addSpan_inv lines m P lo 0 (lineLen lines lo) sty h
        (Or.inl hlt) (Nat.le_refl _)
      obtain ⟨P', hP', hlt'⟩ := ih (lo + 1) _ _ h1 (by simp)
      exact ⟨P', hP', by omega⟩
    · rw [if_neg hg]
      obtain ⟨P', hP', hlt'⟩ := ih (lo + 1) m P h (by omega)
      exact ⟨P', hP', by omega⟩

theorem addTokSpans_inv (lines : List Line) (m : SpanMap) (P : Nat × Nat)
    (t : Tok) (sty : Style) (hInv : MapInv lines P m) (hwf : TokWF lines t)
    (hP : posLE P (t.sLine, t.sCol)) :
    MapInv lines (t.eLine, t.eCol) (addTokSpans lines m t sty) := by
  obtain ⟨hwf1, hwf2, hwf3, hwf4, hwf5⟩ := hwf
  unfold addTokSpans
  by_cases hse : t.sLine = t.eLine
  · rw [if_pos hse]
    have h := addSpan_inv lines m P t.sLine t.sCol t.eCol sty hInv hP
      (by rw [hse]; exact hwf5)
    rw [Nat.max_eq_right (hwf3 hse)] at h
    rw [← hse]
    exact h
  · rw [if_neg hse]
    dsimp only
    have hslt : t.sLine < t.eLine := by omega
    obtain ⟨P₁, hm₁, hP₁⟩ : ∃ P₁, MapInv lines P₁
        (if 1 ≤ t.sLine ∧ t.sLine - 1 < lines.length then
          addSpan m t.sLine t.sCol (lineLen lines t.sLine) sty else m) ∧
        P₁.1 ≤ t.sLine := by
      split
      · exact ⟨(t.sLine, max t.sCol (lineLen lines t.sLine)),
          addSpan_inv lines m P t.sLine t.sCol (lineLen lines t.sLine) sty hInv hP
            (Nat.le_refl _), Nat.le_refl _⟩
      · refine ⟨P, hInv, ?_⟩
        unfold posLE at hP
        omega
    obtain ⟨P₂, hm₂, hlt₂⟩ := middle_fold_inv lines sty (t.eLine - (t.sLine + 1))
      (t.sLine + 1) _ P₁ hm₁ (by omega)
    have hend := addSpan_inv lines _ P₂ t.eLine 0 t.eCol sty hm₂
      (Or.inl (by omega)) hwf5
    simpa using hend

theorem bsLoop_toks (lines builtins : List Line) :
    ∀ (ts : List Tok) (st : BSState),
      bsLoop lines builtins (ts.map TokEvent.tok) st =
        (ts.foldl (bsStep lines builtins) st).spans.map
          (fun e => (e.1, sortSpans e.2)) := by
  intro ts
  induction ts with
  | nil => intro st; rfl
  | cons t ts ih => intro st; simpa [bsLoop] using ih _

theorem bsStep_not_stylable (lines builtins : List Line) (st : BSState) (t : Tok)
    (h : stylable t.type = false) : bsStep lines builtins st t = st := by
  obtain ⟨ty, str, sl, sc, el, ec⟩ := t
  cases ty <;> simp [stylable] at h <;> rfl

theorem foldl_bsStep_inv (lines builtins : List Line) :
    ∀ (ts : List Tok) (st : BSState) (P : Nat × Nat), MapInv lines P st.spans →
      (∀ t ∈ ts, stylable t.type = true → TokWF lines t) →
      ((ts.filter (fun t => stylable t.type)).Pairwise tokBefore) →
      (∀ t ∈ ts, stylable t.type = true → posLE P (t.sLine, t.sCol)) →
      ∃ P', MapInv lines P' (ts.foldl (bsStep lines builtins) st).spans := by
  intro ts
  induction ts with
  | nil =>
    intro st P h _ _ _
    exact ⟨P, h⟩
  | cons t ts ih =>
    intro st P hInv hwf hpw hpre
    rw [List.foldl_cons]
    by_cases hsty : stylable t.type = true
    · have hwft := hwf t (by simp) hsty
      have hPt := hpre t (by simp) hsty
      have hfilter : (t :: ts).filter (fun t => stylable t.type) =
          t :: ts.filter (fun t => stylable t.type) := by
        simp [List.filter_cons, hsty]
      rw [hfilter, List.pairwise_cons] at hpw
      obtain ⟨hhead, htail⟩ := hpw
      have hpre' : ∀ t' ∈ ts, stylable t'.type = true →
          posLE (t.eLine, t.eCol) (t'.sLine, t'.sCol) := by
        intro t' ht' hsty'
        exact hhead t' (List.mem_filter.mpr ⟨ht', hsty'⟩)
      have hwf' : ∀ t' ∈ ts, stylable t'.type = true → TokWF lines t' :=
        fun t' ht' h' => hwf t' (List.mem_cons_of_mem _ ht') h'
      have hnext : MapInv lines (t.eLine, t.eCol) (bsStep lines builtins st t).spans := by
        unfold bsStep
        rcases hc : classify builtins st.pendingDef st.pendingClass t with ⟨sty?, pd, pc⟩
        cases sty? with
        | none =>
          dsimp only
          exact MapInv_mono lines P _ st.spans hInv
            (posLE_trans hPt (tok_start_le_end lines t hwft))
        | some sty =>
          dsimp only
          exact addTokSpans_inv lines st.spans P t sty hInv hwft hPt
      exact ih _ (t.eLine, t.eCol) hnext hwf' htail hpre'
    · rw [bsStep_not_stylable lines builtins st t (by simpa using hsty)]
      have hfilter : (t :: ts).filter (fun t => stylable t.type) =
          ts.filter (fun t => stylable t.type) := by
        simp [List.filter_cons, show stylable t.type = false from by simpa using hsty]
      exact ih st P hInv
        (fun t' ht' h' => hwf t' (List.mem_cons_of_mem _ ht') h')
        (by rw [hfilter] at hpw; exact hpw)
        (fun t' ht' h' => hpre t' (List.mem_cons_of_mem _ ht') h')

theorem lookup_map_sort (m : SpanMap) (ln : Nat) :
    (m.map (fun e => (e.1, sortSpans e.2))).lookup ln = (m.lookup ln).map sortSpans := by
  induction m with
  | nil => rfl
  | cons kv rest ih =>
    obtain ⟨k, lk⟩ := kv
    by_cases h : ln = k
    · subst h
      simp [List.lookup]
    · simp [List.lookup, show (ln == k) = false from by simpa using h, ih]

/-- C5: for every buffer and every token stream satisfying the tokenizer
adapter's contract — style-eligible tokens are well formed against the
buffer and arrive in source-position order — the style-span map produced by
`build_syntax_spans` has, on every recorded line, spans sorted by start
column, pairwise non-overlapping, with every end column at most the length
of that line. -/
theorem c5_style_spans_wf (lines builtins : List Line) (toks : List Tok)
    (hwf : ∀ t ∈ toks, stylable t.type = true → TokWF lines t)
    (hpw : (toks.filter (fun t => stylable t.type)).Pairwise tokBefore) :
    ∀ (ln : Nat) (l : List Span),
      (buildStyleSpans lines builtins (toks.map TokEvent.tok)).lookup ln = some l →
      l.Pairwise (fun a b => a.startCol ≤ b.startCol) ∧
      l.Pairwise (fun a b => a.endCol ≤ b.startCol) ∧
      ∀ s ∈ l, s.endCol ≤ lineLen lines ln := by
  intro ln l hl
  unfold buildStyleSpans at hl
  rw [bsLoop_toks, lookup_map_sort] at hl
  cases hlk : ((toks.foldl (bsStep lines builtins) {}).spans).lookup ln with
  | none => rw [hlk] at hl; simp at hl
  | some l₀ =>
    rw [hlk] at hl
    simp only [Option.map_some'] at hl
    injection hl with hl
    obtain ⟨P', hP'⟩ := foldl_bsStep_inv lines builtins toks {} (0, 0)
      (MapInv_empty lines (0, 0)) hwf hpw
      (fun t _ _ => by unfold posLE; omega)
    obtain ⟨⟨hb, hpw₀⟩, _⟩ := hP' ln l₀ hlk
    have hsorted : l₀.Pairwise (fun a b => a.startCol ≤ b.startCol) :=
      hpw₀.imp_of_mem (fun ha _ hr => by
        have := (hb _ ha).1
        omega)
    have heq : sortSpans l₀ = l₀ :=
      List.Sorted.insertionSort_eq hsorted
    rw [← hl, heq]
    exact ⟨hsorted, hpw₀, fun s hs => (hb s hs).2⟩

/-- Witness for C5 on the spec's example line `"x = 1  # note"` with the
token stream `tokenize.generate_tokens` yields for it: the recorded spans
are the number `1` and the comment, sorted, disjoint and inside the line. -/
theorem c5_witness :
    (buildStyleSpans [s2l "x = 1  # note"] [s2l "print"]
      (([⟨.NAME, s2l "x", 1, 0, 1, 1⟩, ⟨.OP, s2l "=", 1, 2, 1, 3⟩,
         ⟨.NUMBER, s2l "1", 1, 4, 1, 5⟩, ⟨.COMMENT, s2l "# note", 1, 7, 1, 13⟩,
         ⟨.NL, s2l "\n", 1, 13, 1, 14⟩, ⟨.ENDMARKER, [], 2, 0, 2, 0⟩] :
        List Tok).map TokEvent.tok)).lookup 1 =
      some [⟨4, 5, Style.number⟩, ⟨7, 13, Style.comment⟩] ∧
    ([⟨4, 5, Style.number⟩, ⟨7, 13, Style.comment⟩] : List Span).Pairwise
      (fun a b => a.endCol ≤ b.startCol) ∧
    ∀ s ∈ ([⟨4, 5, Style.number⟩, ⟨7, 13, Style.comment⟩] : List Span),
      s.endCol ≤ lineLen [s2l "x = 1  # note"] 1 := by
  have h := c5_style_spans_wf [s2l "x = 1  # note"] [s2l "print"]
    [⟨.NAME, s2l "x", 1, 0, 1, 1⟩, ⟨.OP, s2l "=", 1, 2, 1, 3⟩,
     ⟨.NUMBER, s2l "1", 1, 4, 1, 5⟩, ⟨.COMMENT, s2l "# note", 1, 7, 1, 13⟩,
     ⟨.NL, s2l "\n", 1, 13, 1, 14⟩, ⟨.ENDMARKER, [], 2, 0, 2, 0⟩]
    (by decide) (by decide) 1 [⟨4, 5, Style.number⟩, ⟨7, 13, Style.comment⟩]
    (by decide)
  exact ⟨by decide, h.2.1, h.2.2⟩

/-! ## C7: a lexical error yields an empty style map -/

theorem bsLoop_err (lines builtins : List Line) :
    ∀ (ts : List Tok) (st : BSState),
      bsLoop lines builtins (ts.map TokEvent.tok ++ [TokEvent.err]) st = [] := by
  intro ts
  induction ts with
  | nil => intro st; rfl
  | cons t ts ih => intro st; simpa [bsLoop] using ih _

/-- C7: if the tokenizer raises a lexical error at any point of the stream —
after an arbitrary prefix of yielded tokens — `build_syntax_spans` returns
the completely empty style map, discarding every span built before the
failure point; the error is absorbed, not propagated (the embedding is a
total function). -/
theorem c7_tokenize_error_empty_map (lines builtins : List Line) (toks : List Tok) :
    buildStyleSpans lines builtins (toks.map TokEvent.tok ++ [TokEvent.err]) = [] :=
  bsLoop_err lines builtins toks {}

/-! ## C4: cleanup leaves skip-set lines verbatim -/

theorem cleanupLoop_length (li : List (Nat × Nat)) (sk : List Nat) :
    ∀ (start : Nat) (ls : List Line), (cleanupLoop li sk start ls).length = ls.length := by
  intro start ls
  induction ls generalizing start with
  | nil => rfl
  | cons raw rest ih => simp [cleanupLoop, ih]

theorem cleanupLoop_skip (li : List (Nat × Nat)) (sk : List Nat) :
    ∀ (ls : List Line) (start j : Nat), j < ls.length → (start + j) ∈ sk →
      (cleanupLoop li sk start ls).getD j [] = ls.getD j [] := by
  intro ls
  induction ls with
  | nil => intro start j h _; simp at h
  | cons raw rest ih =>
    intro start j hj hmem
    cases j with
    | zero =>
      simp only [cleanupLoop]
      rw [if_pos (by simpa using hmem)]
      rfl
    | succ j =>
      simp only [cleanupLoop]
      have h := ih (start + 1) j (by simpa using hj)
        (by rw [show start + 1 + j = start + (j + 1) from by omega]; exact hmem)
      simpa [List.getD_cons_succ] using h

/-- C4 counterexample: the token events are exactly those
`tokenize.generate_tokens` yields for the two-line buffer
`["x = (", "\t1)"]`; line 2 starts inside the open bracket and lands in the
skip set, and `cleanup_indentation` passes it through with its leading tab
intact — not, as the claim states, with the tab replaced by one indent unit
of spaces. -/
theorem c4_counterexample :
    let events := [TokEvent.tok ⟨.NAME, s2l "x", 1, 0, 1, 1⟩,
      TokEvent.tok ⟨.OP, s2l "=", 1, 2, 1, 3⟩,
      TokEvent.tok ⟨.OP, s2l "(", 1, 4, 1, 5⟩,
      TokEvent.tok ⟨.NL, s2l "\n", 1, 5, 1, 6⟩,
      TokEvent.tok ⟨.NUMBER, s2l "1", 2, 1, 2, 2⟩,
      TokEvent.tok ⟨.OP, s2l ")", 2, 2, 2, 3⟩,
      TokEvent.tok ⟨.NEWLINE, s2l "\n", 2, 3, 2, 4⟩,
      TokEvent.tok ⟨.ENDMARKER, [], 3, 0, 3, 0⟩]
    computeIndents events = some ([(1, 0)], [1, 1, 2]) ∧
    (2 : Nat) ∈ [1, 1, 2] ∧
    (cleanupIndentation [s2l "x = (", s2l "\t1)"] events).1.getD 1 [] = s2l "\t1)" ∧
    s2l "\t1)" ≠ s2l "    1)" := by
  exact ⟨by decide, by decide, by decide, by decide⟩

/-- C4 amended: whenever indent computation succeeds, every line whose
1-based number lies in the computed skip set is passed through by
`cleanup_indentation` completely unchanged — leading tabs included, with no
tab normalization and no trailing-whitespace stripping. -/
theorem c4_skip_lines_verbatim (lines : List Line) (events : List TokEvent)
    (li : List (Nat × Nat)) (sk : List Nat) (idx : Nat)
    (hcomp : computeIndents events = some (li, sk))
    (hmem : idx ∈ sk) (hlo : 1 ≤ idx) (hhi : idx ≤ lines.length) :
    (cleanupIndentation lines events).1.getD (idx - 1) [] =
      lines.getD (idx - 1) [] := by
  unfold cleanupIndentation
  rw [hcomp]
  dsimp only
  have hlen := cleanupLoop_length li sk 1 lines
  have hne : cleanupLoop li sk 1 lines ≠ [] := by
    intro hcon
    have h0 := congrArg List.length hcon
    rw [hlen] at h0
    simp only [List.length_nil] at h0
    omega
  rw [if_neg hne]
  have h := cleanupLoop_skip li sk lines 1 (idx - 1) (by omega)
    (by rw [show 1 + (idx - 1) = idx from by omega]; exact hmem)
  exact h

/-- Witness for the amended C4: a triple-quoted string spanning lines 1–2
puts both lines in the skip set, and the irregularly indented interior line
passes through reformatting untouched. -/
theorem c4_witness :
    computeIndents [TokEvent.tok ⟨.STRING, s2l "'''a\n  b'''", 1, 0, 2, 6⟩,
      TokEvent.tok ⟨.NEWLINE, s2l "\n", 2, 6, 2, 7⟩,
      TokEvent.tok ⟨.ENDMARKER, [], 3, 0, 3, 0⟩] = some ([], [1, 2]) ∧
    (cleanupIndentation [s2l "'''a", s2l "  b'''"]
      [TokEvent.tok ⟨.STRING, s2l "'''a\n  b'''", 1, 0, 2, 6⟩,
       TokEvent.tok ⟨.NEWLINE, s2l "\n", 2, 6, 2, 7⟩,
       TokEvent.tok ⟨.ENDMARKER, [], 3, 0, 3, 0⟩]).1.getD 1 [] = s2l "  b'''" := by
  have h := c4_skip_lines_verbatim [s2l "'''a", s2l "  b'''"]
    [TokEvent.tok ⟨.STRING, s2l "'''a\n  b'''", 1, 0, 2, 6⟩,
     TokEvent.tok ⟨.NEWLINE, s2l "\n", 2, 6, 2, 7⟩,
     TokEvent.tok ⟨.ENDMARKER, [], 3, 0, 3, 0⟩]
    [] [1, 2] 2 (by decide) (by decide) (by decide) (by decide)
  exact ⟨by decide, by simpa using h⟩

/-! ## C9: find-next never modifies text, dirty flag or selection -/

/-- C9: for any buffer and non-empty query, `find_next` leaves the lines,
the dirty flag, the selection state and the scroll offsets exactly as they
were, whether or not the query is found. -/
theorem c9_find_next_frame (b : Buffer) (q : Line) (hq : q ≠ []) :
    (findNext b q).lines = b.lines ∧ (findNext b q).dirty = b.dirty ∧
    (findNext b q).selecting = b.selecting ∧
    (findNext b q).selection_start = b.selection_start ∧
    (findNext b q).selection_end = b.selection_end ∧
    (findNext b q).scroll_y = b.scroll_y ∧
    (findNext b q).scroll_x = b.scroll_x := by
  unfold findNext
  rw [if_neg hq]
  dsimp only
  split <;> simp

/-- Witness for C9 at a concrete buffer and query. -/
theorem c9_witness :
    (s2l "b" ≠ []) ∧
    (findNext { lines := [s2l "ab"] } (s2l "b")).lines = [s2l "ab"] := by
  refine ⟨by decide, ?_⟩
  have h := c9_find_next_frame { lines := [s2l "ab"] } (s2l "b") (by decide)
  exact h.1

/-! ## C6: the viewport adjustment formula -/

/-- C6: `ensure_cursor_visible` scrolls up to the cursor line when it is
above the window, scrolls down to `cursor - height + 1` when it is at or
below the bottom edge, applies the symmetric rule horizontally, leaves the
offset unchanged otherwise, and clamps both offsets to be non-negative. -/
theorem c6_viewport_adjustment (cy cx sy sx h w : Int) (hh : 1 ≤ h) (hw : 1 ≤ w) :
    ((cy < sy → (ensureCursorVisible cy cx sy sx h w).1 = max 0 cy) ∧
     (sy + h ≤ cy → (ensureCursorVisible cy cx sy sx h w).1 = max 0 (cy - h + 1)) ∧
     (sy ≤ cy → cy < sy + h → (ensureCursorVisible cy cx sy sx h w).1 = max 0 sy)) ∧
    ((cx < sx → (ensureCursorVisible cy cx sy sx h w).2 = max 0 cx) ∧
     (sx + w ≤ cx → (ensureCursorVisible cy cx sy sx h w).2 = max 0 (cx - w + 1)) ∧
     (sx ≤ cx → cx < sx + w → (ensureCursorVisible cy cx sy sx h w).2 = max 0 sx)) ∧
    0 ≤ (ensureCursorVisible cy cx sy sx h w).1 ∧
    0 ≤ (ensureCursorVisible cy cx sy sx h w).2 := by
  unfold ensureCursorVisible
  dsimp only
  split_ifs <;> refine ⟨⟨?_, ?_, ?_⟩, ⟨?_, ?_, ?_⟩, ?_, ?_⟩ <;> intros <;> omega

/-- Witness for C6, including the spec's worked example `height = 10`,
`scroll_y = 0`, cursor on line 25 giving `scroll_y = 16`. -/
theorem c6_witness :
    (1 : Int) ≤ 10 ∧ (1 : Int) ≤ 80 ∧ (0 : Int) + 10 ≤ 25 ∧
    (ensureCursorVisible 25 0 0 0 10 80).1 = 16 := by
  refine ⟨by norm_num, by norm_num, by norm_num, ?_⟩
  have h := (c6_viewport_adjustment 25 0 0 0 10 80 (by norm_num) (by norm_num)).1.2.1
    (by norm_num)
  rw [h]; norm_num

/-! ## C10: after adjustment the cursor is inside the window -/

/-- C10: for a buffer whose cursor satisfies the bounds invariant and whose
scroll offsets are non-negative, `ensure_cursor_visible` with body height
and width at least 1 puts the cursor inside the visible window and keeps
both scroll offsets non-negative. -/
theorem c10_cursor_inside_window (lines : List Line) (cy cx sy sx h w : Int)
    (hcy0 : 0 ≤ cy) (hcy : cy < (lines.length : Int)) (hcx0 : 0 ≤ cx)
    (hcx : cx ≤ ((lines.getD cy.toNat []).length : Int))
    (hsy : 0 ≤ sy) (hsx : 0 ≤ sx) (hh : 1 ≤ h) (hw : 1 ≤ w) :
    (ensureCursorVisible cy cx sy sx h w).1 ≤ cy ∧
    cy < (ensureCursorVisible cy cx sy sx h w).1 + h ∧
    (ensureCursorVisible cy cx sy sx h w).2 ≤ cx ∧
    cx < (ensureCursorVisible cy cx sy sx h w).2 + w ∧
    0 ≤ (ensureCursorVisible cy cx sy sx h w).1 ∧
    0 ≤ (ensureCursorVisible cy cx sy sx h w).2 := by
  unfold ensureCursorVisible
  dsimp only
  split_ifs <;> refine ⟨?_, ?_, ?_, ?_, ?_, ?_⟩ <;> omega

/-- Witness for C10 at a concrete buffer, cursor and window. -/
theorem c10_witness :
    (0 : Int) ≤ 5 ∧ (5 : Int) < (([s2l "abcdefgh"] : List Line).length : Int) + 5 ∧
    (ensureCursorVisible 0 5 0 0 3 4).2 ≤ 5 ∧
    5 < (ensureCursorVisible 0 5 0 0 3 4).2 + 4 := by
  have h := c10_cursor_inside_window [s2l "abcdefgh"] 0 5 0 0 3 4
    (by norm_num) (by norm_num) (by norm_num) (by norm_num [s2l])
    (by norm_num) (by norm_num) (by norm_num) (by norm_num)
  exact ⟨by norm_num, by norm_num, h.2.2.1, h.2.2.2.1⟩

end PyEdit
